import Mathlib

/-!
Verification of the client-side diagnosis cache of OrganInsight3D
(`src/utils/diagnosis-cache.ts`), shallowly embedded in Lean.

Modelling conventions:
- `localStorage` is modelled as an association list from cache keys to stored
  records (`CacheState.items`).  The source prefixes every entry key with the
  constant `DIAGNOSIS_CACHE_PREFIX` and keeps the index under a separate fixed
  key; the prefixing is folded away (keys here are the un-prefixed cache keys,
  and the index is a separate state component holding the parsed content of the
  index record).
- A stored record either deserializes to a `CachedDiagnosis` (`EntryVal.good`)
  or fails `JSON.parse` (`EntryVal.corrupt`, carrying its byte size, since even
  an unparseable record contributes to the measured cache size).
- `Date.now()` is passed in explicitly as a `Nat` (epoch milliseconds).
- The byte size the source measures via `new Blob([JSON.stringify e]).size` is
  abstracted as a configuration function `CacheConfig.entryBytes`; the byte
  budget (`MAX_DIAGNOSIS_CACHE_SIZE_MB * 1024 * 1024` in the source, where the
  source compares megabyte values — division by 2 ^ 20 is exact in IEEE
  doubles for any realistic total, so comparing in bytes is equivalent) is the
  configuration field `CacheConfig.budgetBytes`.
- The exceptions `localStorage.setItem` can throw while writing the entry
  record are modelled by explicit `WriteResult` inputs (first attempt and
  retry).  The index-record writes can also fail; the source catches and
  swallows those errors inside `updateDiagnosisCacheIndex`, so their outcome
  is modelled as an explicit `Bool` on the index helpers (`true` = the write
  was accepted), and the operations without that parameter are, as stated at
  each one, the instantiation where the index writes succeed.
- The client runs in a browser context, so the `typeof window` guards are
  taken in their `window`-present branch.
-/

/-- The AI diagnosis payload (`OrganDiagnosis` in `types/diagnosis.ts`).
The cache never inspects its fields, so it is modelled opaquely as its
serialized form. -/
structure OrganDiagnosis where
  payload : String
deriving DecidableEq, Repr

/-- One cached record (`CachedDiagnosis` in the source). `timestamp` is the
creation time (epoch ms) and plays the role the spec calls `createdAt`. -/
structure CachedDiagnosis where
  organName : String
  imageHash : String
  diagnosis : OrganDiagnosis
  timestamp : Nat
  expiresAt : Nat
deriving DecidableEq, Repr

/-- A raw record held in `localStorage` under an entry key: either it parses
to a `CachedDiagnosis`, or `JSON.parse` throws on it (`corrupt`, carrying the
byte size the record still occupies). -/
inductive EntryVal where
  | good : CachedDiagnosis → EntryVal
  | corrupt : Nat → EntryVal
deriving DecidableEq, Repr

/-- The persisted state: the entry records (association list keyed by cache
key) and the parsed content of the separate index record. -/
structure CacheState where
  items : List (String × EntryVal)
  index : List String
deriving DecidableEq, Repr

/-- Per-instance configuration: the byte budget and the serialized byte size
of a record (`new Blob([JSON.stringify e]).size` in the source). -/
structure CacheConfig where
  budgetBytes : Nat
  entryBytes : CachedDiagnosis → Nat

/-- `DIAGNOSIS_CACHE_EXPIRY_DAYS = 30` in the source. -/
def DIAGNOSIS_CACHE_EXPIRY_DAYS : Nat := 30

/-- The fixed TTL in milliseconds:
`DIAGNOSIS_CACHE_EXPIRY_DAYS * 24 * 60 * 60 * 1000`. -/
def DIAGNOSIS_CACHE_EXPIRY_MS : Nat :=
  DIAGNOSIS_CACHE_EXPIRY_DAYS * 24 * 60 * 60 * 1000

/-- `MAX_DIAGNOSIS_CACHE_SIZE_MB = 10` in the source. -/
def MAX_DIAGNOSIS_CACHE_SIZE_MB : Nat := 10

/-! ## The fingerprint function (`generateImageHash`) -/

/-- JavaScript `ToInt32`: reduce an integer into `[-2^31, 2^31)`. -/
def toInt32 (n : Int) : Int := (n + 2 ^ 31) % 2 ^ 32 - 2 ^ 31

/-- One iteration of the hash loop:
`hash = ((hash << 5) - hash) + char; hash = hash & hash`.
`hash << 5` is `ToInt32(hash * 32)`; `hash & hash` is `ToInt32` of the exact
intermediate sum (the intermediate magnitudes stay far below 2 ^ 53, so the
double arithmetic is exact). -/
def hashStep (h : Int) (c : Nat) : Int := toInt32 (toInt32 (h * 32) - h + c)

/-- JavaScript `s.substring(a, b)` for `a ≤ b` (all call sites satisfy it),
with the clamping to the string length that `substring` performs. -/
def jsSubstring (s : List Char) (a b : Nat) : List Char := (s.drop a).take (b - a)

/-- Digit characters of JavaScript `Number.prototype.toString(36)`:
`0`-`9` then `a`-`z`. -/
def base36Char (n : Nat) : Char :=
  if n < 10 then Char.ofNat (48 + n) else Char.ofNat (87 + n)

/-- Base-36 digit accumulator (fuel-driven; `fuel ≥ n` suffices). -/
def toBase36Go : Nat → Nat → List Char → List Char
  | 0, _, acc => acc
  | _ + 1, 0, acc => acc
  | fuel + 1, n + 1, acc =>
    toBase36Go fuel ((n + 1) / 36) (base36Char ((n + 1) % 36) :: acc)

/-- JavaScript `n.toString(36)` for a non-negative integer. -/
def jsToString36 (n : Nat) : String :=
  if n = 0 then String.mk ['0'] else String.mk (toBase36Go n n [])

/-- `generateImageHash` from the source: sample up to 5000 characters from the
beginning, middle and end of the data, append the decimal length, fold the
32-bit hash over the characters, and render `Math.abs(hash)` in base 36.
Strings are modelled as their character sequences; `charCodeAt` is modelled as
the character code (`Char.toNat`), exact for the ASCII base64 payloads the
cache receives. -/
def generateImageHash (imageData : String) : String :=
  let data := imageData.data
  let dataLength := data.length
  let sampleSize := 5000
  let sections : List (List Char) :=
    [jsSubstring data 0 (min sampleSize dataLength),
     jsSubstring data (dataLength / 2) (dataLength / 2 + min sampleSize dataLength),
     jsSubstring data (dataLength - sampleSize) dataLength]
  let str := sections.flatten ++ (Nat.repr dataLength).data
  let hash := str.foldl (fun h c => hashStep h c.toNat) 0
  jsToString36 hash.natAbs

/-- `generateDiagnosisCacheKey` from the source: the organ-name-prefixed key
(exported but, as proved below, not used by the store/lookup path). -/
def generateDiagnosisCacheKey (organName imageHash : String) : String :=
  organName.toLower ++ String.mk ['_'] ++ imageHash

/-! ## localStorage primitives (restricted to the entry records) -/

/-- `localStorage.getItem(DIAGNOSIS_CACHE_PREFIX + k)`: first binding wins. -/
def getItem : List (String × EntryVal) → String → Option EntryVal
  | [], _ => none
  | (k', v) :: rest, k => if k' = k then some v else getItem rest k

/-- `localStorage.removeItem(DIAGNOSIS_CACHE_PREFIX + k)`. -/
def removeItem : List (String × EntryVal) → String → List (String × EntryVal)
  | [], _ => []
  | (k', v) :: rest, k =>
    if k' = k then removeItem rest k else (k', v) :: removeItem rest k

/-- `localStorage.setItem(DIAGNOSIS_CACHE_PREFIX + k, v)`: replaces any
existing binding for `k`. -/
def setItem (items : List (String × EntryVal)) (k : String) (v : EntryVal) :
    List (String × EntryVal) :=
  (k, v) :: removeItem items k

/-- `index.filter(k => k !== key)`, used by `removeFromDiagnosisCacheIndex`. -/
def removeKey : List String → String → List String
  | [], _ => []
  | k' :: rest, k => if k' = k then removeKey rest k else k' :: removeKey rest k

/-! ## Index manager -/

/-- `updateDiagnosisCacheIndex`: write the whole index record back.  The
source wraps this `localStorage.setItem` in a try/catch that only logs, so a
failed write (e.g. quota) is swallowed and the previous index stays in place;
`iw` is the outcome of that write. -/
def updateDiagnosisCacheIndex (iw : Bool) (s : CacheState) (keys : List String) :
    CacheState :=
  if iw then { s with index := keys } else s

/-- `addToDiagnosisCacheIndex`: push the key onto the index record unless it
is already present.  `iw` is the outcome of the swallowed index write — on
`false` the addition silently does not happen, as in the source. -/
def addToDiagnosisCacheIndex (iw : Bool) (s : CacheState) (key : String) : CacheState :=
  if key ∈ s.index then s else updateDiagnosisCacheIndex iw s (s.index ++ [key])

/-- `removeFromDiagnosisCacheIndex`: filter the key out of the index record.
`iw` is the outcome of the swallowed index write — on `false` the removal
silently does not happen, as in the source. -/
def removeFromDiagnosisCacheIndex (iw : Bool) (s : CacheState) (key : String) :
    CacheState :=
  updateDiagnosisCacheIndex iw s (removeKey s.index key)

/-! ## Size accounting and eviction -/

/-- Byte size of a stored record (`new Blob([data]).size`). -/
def entryValBytes (cfg : CacheConfig) : EntryVal → Nat
  | .good e => cfg.entryBytes e
  | .corrupt b => b

/-- Contribution of one indexed key to `getDiagnosisCacheSize`: the byte size
of the record if present, `0` for a dangling index key. -/
def sizeOfKey (cfg : CacheConfig) (items : List (String × EntryVal)) (k : String) : Nat :=
  match getItem items k with
  | some v => entryValBytes cfg v
  | none => 0

/-- `getDiagnosisCacheSize`, in bytes: sum over the indexed keys of the byte
size of each stored record (the source reports it divided by `1024 * 1024`). -/
def getDiagnosisCacheSize (cfg : CacheConfig) (s : CacheState) : Nat :=
  (s.index.map (sizeOfKey cfg s.items)).sum

/-- `isDiagnosisCacheFull`: `getDiagnosisCacheSize() >= MAX_DIAGNOSIS_CACHE_SIZE_MB`,
stated in bytes (equivalent, since division by `2 ^ 20` is exact). -/
def isDiagnosisCacheFull (cfg : CacheConfig) (s : CacheState) : Bool :=
  decide (cfg.budgetBytes ≤ getDiagnosisCacheSize cfg s)

/-- `deleteCachedDiagnosis`, with the outcome `iw` of its swallowed
index-record write explicit: remove the record, deregister from the index
(unless that index write fails, in which case the key silently stays
indexed), report `true`.  (The source returns `false` only if `removeItem`
itself threw, which cannot happen for the modelled storage.) -/
def deleteCachedDiagnosisW (iw : Bool) (s : CacheState) (key : String) :
    CacheState × Bool :=
  (removeFromDiagnosisCacheIndex iw { s with items := removeItem s.items key } key, true)

/-- `deleteCachedDiagnosis` on the path where its index write succeeds — the
instantiation used inside eviction, expiry sweeping and lookup, whose
internal index writes this development models as succeeding. -/
def deleteCachedDiagnosis (s : CacheState) (key : String) : CacheState × Bool :=
  deleteCachedDiagnosisW true s key

/-- The scan inside `evictOldestDiagnosis`: walk the index keeping the key
with the strictly smallest `timestamp` seen so far (a later equal timestamp
does not displace the current best, because the comparison is strict).
Records that are missing or fail to parse are skipped (the `catch` branch). -/
def evictScan (items : List (String × EntryVal)) :
    List String → Option (String × Nat) → Option (String × Nat)
  | [], best => best
  | k :: rest, best =>
    match getItem items k with
    | some (.good e) =>
      match best with
      | none => evictScan items rest (some (k, e.timestamp))
      | some (bk, bt) =>
        if e.timestamp < bt then evictScan items rest (some (k, e.timestamp))
        else evictScan items rest (some (bk, bt))
    | _ => evictScan items rest best

/-- `evictOldestDiagnosis`: delete the oldest parseable indexed record, if
any. -/
def evictOldestDiagnosis (s : CacheState) : CacheState :=
  match evictScan s.items s.index none with
  | some (k, _) => (deleteCachedDiagnosis s k).1
  | none => s

/-- The `while (isDiagnosisCacheFull()) evictOldestDiagnosis();` loop of
`cacheDiagnosis`, driven by fuel (each iteration removes an indexed key, so
`s.index.length + 1` fuel runs the loop to completion).  If the cache is full
but holds no parseable record the source loops forever; the model exits the
loop in that degenerate case instead. -/
def evictWhileFull (cfg : CacheConfig) : Nat → CacheState → CacheState
  | 0, s => s
  | fuel + 1, s =>
    if isDiagnosisCacheFull cfg s then
      match evictScan s.items s.index none with
      | some (k, _) => evictWhileFull cfg fuel (deleteCachedDiagnosis s k).1
      | none => s
    else s

/-! ## Expiry sweeper -/

/-- The loop body of `clearExpiredDiagnoses`: the index is snapshotted once,
then each parseable record past its `expiresAt` is deleted through
`deleteCachedDiagnosis`; records that are missing or fail to parse are
skipped (the per-key `catch` logs and continues). -/
def clearExpiredLoop (now : Nat) :
    List String → CacheState → Nat → CacheState × Nat
  | [], s, cleared => (s, cleared)
  | k :: rest, s, cleared =>
    match getItem s.items k with
    | some (.good cached) =>
      if cached.expiresAt < now then
        clearExpiredLoop now rest (deleteCachedDiagnosis s k).1 (cleared + 1)
      else clearExpiredLoop now rest s cleared
    | _ => clearExpiredLoop now rest s cleared

/-- `clearExpiredDiagnoses`: sweep the snapshot of the index, returning the
new state and the number of records removed. -/
def clearExpiredDiagnoses (now : Nat) (s : CacheState) : CacheState × Nat :=
  clearExpiredLoop now s.index s 0

/-! ## Store and lookup -/

/-- Outcome of one `localStorage.setItem` attempt on the entry record. -/
inductive WriteResult where
  | ok
  | quotaExceeded
  | otherError
deriving DecidableEq, Repr

/-- What `cacheDiagnosis` produces: the final state, the returned boolean,
whether the quota-remediation sweep ran, and how many `setItem` attempts were
made on the entry record. -/
structure StoreResult where
  state : CacheState
  ok : Bool
  sweepRan : Bool
  writeAttempts : Nat
deriving DecidableEq, Repr

/-- The record `cacheDiagnosis` builds before writing. -/
def mkCachedDiagnosis (organName imageHash : String) (diagnosis : OrganDiagnosis)
    (now : Nat) : CachedDiagnosis :=
  { organName := organName, imageHash := imageHash, diagnosis := diagnosis,
    timestamp := now, expiresAt := now + DIAGNOSIS_CACHE_EXPIRY_MS }

/-- `cacheDiagnosis` from the source, with every swallowed failure outcome
explicit.  `w1` is the outcome of the first `setItem` on the entry record and
`w2` of the retry (used only when the first attempt threw
`QuotaExceededError`); `i1` and `i2` are the outcomes of the swallowed
index-record writes inside `addToDiagnosisCacheIndex` after the first and the
retried entry write (the index writes of the deletes inside the eviction loop
and the remediation sweep are taken on their success path); `now` and
`retryNow` are the values of `Date.now()` at the first attempt and during the
remediation pass.
Control flow of the source:
- compute the image hash and use it alone as the cache key;
- evict while the cache is full;
- write the record and register the key (the registration silently not
  happening if its own write fails); on an accepted entry write return
  `true` regardless of the index write;
- on `QuotaExceededError`: run `clearExpiredDiagnoses`, retry the write once,
  return `true` on success and `false` on a second failure;
- on any other exception: return `false` with no sweep and no retry. -/
def cacheDiagnosisW (cfg : CacheConfig) (w1 w2 : WriteResult) (i1 i2 : Bool)
    (now retryNow : Nat) (organName imageData : String) (diagnosis : OrganDiagnosis)
    (s : CacheState) : StoreResult :=
  let imageHash := generateImageHash imageData
  let cacheKey := imageHash
  let s1 := evictWhileFull cfg (s.index.length + 1) s
  match w1 with
  | .ok =>
    let s2 := addToDiagnosisCacheIndex i1
      { s1 with items :=
          setItem s1.items cacheKey (.good (mkCachedDiagnosis organName imageHash diagnosis now)) }
      cacheKey
    { state := s2, ok := true, sweepRan := false, writeAttempts := 1 }
  | .quotaExceeded =>
    let s2 := (clearExpiredDiagnoses retryNow s1).1
    match w2 with
    | .ok =>
      let s3 := addToDiagnosisCacheIndex i2
        { s2 with items :=
            setItem s2.items cacheKey (.good (mkCachedDiagnosis organName imageHash diagnosis retryNow)) }
        cacheKey
      { state := s3, ok := true, sweepRan := true, writeAttempts := 2 }
    | _ => { state := s2, ok := false, sweepRan := true, writeAttempts := 2 }
  | .otherError => { state := s1, ok := false, sweepRan := false, writeAttempts := 1 }

/-- `cacheDiagnosis` on the path where the index-record writes succeed (the
storage accepts the small index blob); the entry-record write outcomes stay
explicit. -/
def cacheDiagnosis (cfg : CacheConfig) (w1 w2 : WriteResult) (now retryNow : Nat)
    (organName imageData : String) (diagnosis : OrganDiagnosis)
    (s : CacheState) : StoreResult :=
  cacheDiagnosisW cfg w1 w2 true true now retryNow organName imageData diagnosis s

/-- `getCachedDiagnosis` from the source: hash the image, read the record
under the hash alone, report absent on a missing or unparseable record, and
on an expired record delete it first and report absent. -/
def getCachedDiagnosis (now : Nat) (imageData : String) (s : CacheState) :
    Option OrganDiagnosis × CacheState :=
  let cacheKey := generateImageHash imageData
  match getItem s.items cacheKey with
  | none => (none, s)
  | some (.corrupt _) => (none, s)
  | some (.good cached) =>
    if cached.expiresAt < now then (none, (deleteCachedDiagnosis s cacheKey).1)
    else (some cached.diagnosis, s)

/-- No stored record fails to parse. -/
def NoCorrupt (items : List (String × EntryVal)) : Prop :=
  ∀ k b, getItem items k ≠ some (.corrupt b)

/-- The invariant the code actually maintains: the index record lists exactly
the keys that have a stored record — live, expired or corrupt alike. -/
def IndexMatchesStore (s : CacheState) : Prop :=
  ∀ k, k ∈ s.index ↔ (getItem s.items k).isSome

/-- Liveness of a stored record in the sense of the spec sentence behind
claim C5: present, parseable and not past `expiresAt`. -/
def entryLiveAt (now : Nat) : Option EntryVal → Bool
  | some (.good e) => decide (¬ e.expiresAt < now)
  | _ => false

/-- Modelled from the spec (for refutation, claim C5): the index is at all
times exactly the set of fingerprints with a corresponding live (non-expired,
non-evicted) record. -/
def IndexMatchesLiveSpec (s : CacheState) (now : Nat) : Prop :=
  ∀ k, k ∈ s.index ↔ entryLiveAt now (getItem s.items k) = true

/-! ## Concrete fixtures for witnesses and counterexamples -/

def imgA : String := "a"

def imgB : String := "b"

def imgC : String := "c"

def imgD : String := "d"

def organOne : String := "organ-one"

def organTwo : String := "organ-two"

def organThree : String := "organ-three"

def organFour : String := "organ-four"

def keyAbsent : String := "missing-key"

def diagOne : OrganDiagnosis := { payload := "diagnosis-one" }

def diagTwo : OrganDiagnosis := { payload := "diagnosis-two" }

def diagThree : OrganDiagnosis := { payload := "diagnosis-three" }

def diagFour : OrganDiagnosis := { payload := "diagnosis-four" }

def emptyCacheState : CacheState := { items := [], index := [] }

/-- Budget 100 bytes, every record 40 bytes (the concrete scenario of the
spec, with the budget taken as configurable as §6 of the spec describes). -/
def cfgSmall : CacheConfig := { budgetBytes := 100, entryBytes := fun _ => 40 }

/-- Budget 100 bytes, every record 150 bytes: a single record overshoots the
budget. -/
def cfgOversize : CacheConfig := { budgetBytes := 100, entryBytes := fun _ => 150 }

/-- The spec scenario, step 1: store image `imgA` at time 0. -/
def scenario1 : CacheState :=
  (cacheDiagnosis cfgSmall .ok .ok 0 0 organOne imgA diagOne emptyCacheState).state

/-- Step 2: store image `imgB` at time 1. -/
def scenario2 : CacheState :=
  (cacheDiagnosis cfgSmall .ok .ok 1 1 organTwo imgB diagTwo scenario1).state

/-- Step 3: store image `imgC` at time 2. -/
def scenario3 : CacheState :=
  (cacheDiagnosis cfgSmall .ok .ok 2 2 organThree imgC diagThree scenario2).state

/-- Step 4: store image `imgD` at time 3. -/
def scenario4 : CacheState :=
  (cacheDiagnosis cfgSmall .ok .ok 3 3 organFour imgD diagFour scenario3).state

/-- A record that expired at time 5, stored under the hash of `imgA`. -/
def entryExpired : CachedDiagnosis :=
  { organName := organOne, imageHash := generateImageHash imgA, diagnosis := diagOne,
    timestamp := 0, expiresAt := 5 }

/-- A state holding only the expired record, correctly indexed. -/
def stateExpired : CacheState :=
  { items := [(generateImageHash imgA, .good entryExpired)],
    index := [generateImageHash imgA] }

/-- A state holding one unparseable 7-byte record under the hash of `imgA`,
indexed. -/
def stateCorrupt : CacheState :=
  { items := [(generateImageHash imgA, .corrupt 7)],
    index := [generateImageHash imgA] }

/-! ## Lemmas about the storage primitives -/

/-- On the success path of its index write, `deleteCachedDiagnosis` removes
the record and deregisters the key. -/
theorem deleteCachedDiagnosis_eq (s : CacheState) (key : String) :
    deleteCachedDiagnosis s key
      = ({ items := removeItem s.items key, index := removeKey s.index key }, true) := rfl

/-- A failed index write makes the registration silently not happen. -/
theorem addToDiagnosisCacheIndex_false (s : CacheState) (key : String) :
    addToDiagnosisCacheIndex false s key = s := by
  unfold addToDiagnosisCacheIndex updateDiagnosisCacheIndex
  split <;> rfl

/-- A failed index write makes the deregistration silently not happen: the
record is gone but the key stays indexed. -/
theorem deleteCachedDiagnosisW_false (s : CacheState) (key : String) :
    (deleteCachedDiagnosisW false s key).1
      = { s with items := removeItem s.items key } := rfl

theorem getItem_removeItem (items : List (String × EntryVal)) (k k' : String) :
    getItem (removeItem items k) k' = if k' = k then none else getItem items k' := by
  induction items with
  | nil => simp [removeItem, getItem]
  | cons p rest ih =>
    obtain ⟨a, v⟩ := p
    by_cases hak : a = k
    · subst hak
      by_cases hk' : k' = a
      · subst hk'
        simp [removeItem, getItem, ih]
      · have hak' : ¬ a = k' := fun h => hk' h.symm
        simp [removeItem, getItem, ih, hk', hak']
    · by_cases hak' : a = k'
      · subst hak'
        have hk'k : ¬ a = k := hak
        simp [removeItem, getItem, hak, hk'k]
      · simp [removeItem, getItem, hak, hak', ih]

theorem getItem_setItem (items : List (String × EntryVal)) (k k' : String) (v : EntryVal) :
    getItem (setItem items k v) k' = if k' = k then some v else getItem items k' := by
  by_cases h : k = k'
  · subst h
    simp [setItem, getItem]
  · have h' : ¬ k' = k := fun hc => h hc.symm
    simp [setItem, getItem, h, h', getItem_removeItem]

theorem removeItem_eq_self (items : List (String × EntryVal)) (k : String)
    (h : getItem items k = none) : removeItem items k = items := by
  induction items with
  | nil => simp [removeItem]
  | cons p rest ih =>
    obtain ⟨a, v⟩ := p
    by_cases hak : a = k
    · simp [getItem, hak] at h
    · simp [getItem, hak] at h
      simp [removeItem, hak, ih h]

theorem mem_removeKey (l : List String) (k k' : String) :
    k' ∈ removeKey l k ↔ k' ∈ l ∧ k' ≠ k := by
  induction l with
  | nil => simp [removeKey]
  | cons a rest ih =>
    by_cases hak : a = k
    · subst hak
      simp [removeKey, ih]
      tauto
    · simp [removeKey, hak, ih]
      constructor
      · rintro (h | ⟨h1, h2⟩)
        · subst h
          exact ⟨Or.inl rfl, fun hc => hak hc⟩
        · exact ⟨Or.inr h1, h2⟩
      · rintro ⟨h1 | h1, h2⟩
        · exact Or.inl h1
        · exact Or.inr ⟨h1, h2⟩

theorem removeKey_eq_self (l : List String) (k : String) (h : k ∉ l) :
    removeKey l k = l := by
  induction l with
  | nil => simp [removeKey]
  | cons a rest ih =>
    simp only [List.mem_cons] at h
    push_neg at h
    have hak : ¬ a = k := fun hc => h.1 hc.symm
    simp [removeKey, hak, ih h.2]

theorem nodup_removeKey (l : List String) (k : String) (h : l.Nodup) :
    (removeKey l k).Nodup := by
  induction l with
  | nil => simp [removeKey]
  | cons a rest ih =>
    simp only [List.nodup_cons] at h
    by_cases hak : a = k
    · simp [removeKey, hak, ih h.2]
    · simp only [removeKey, if_neg hak, List.nodup_cons]
      refine ⟨fun hmem => ?_, ih h.2⟩
      exact h.1 ((mem_removeKey rest k a).mp hmem).1

theorem length_removeKey_le (l : List String) (k : String) :
    (removeKey l k).length ≤ l.length := by
  induction l with
  | nil => simp [removeKey]
  | cons a rest ih =>
    by_cases hak : a = k
    · simp only [removeKey, if_pos hak, List.length_cons]
      omega
    · simp only [removeKey, if_neg hak, List.length_cons]
      omega

theorem length_removeKey_lt (l : List String) (k : String) (h : k ∈ l) :
    (removeKey l k).length < l.length := by
  induction l with
  | nil => simp at h
  | cons a rest ih =>
    by_cases hak : a = k
    · simp only [removeKey, if_pos hak, List.length_cons]
      have := length_removeKey_le rest k
      omega
    · simp only [List.mem_cons] at h
      rcases h with h | h
      · exact absurd h.symm hak
      · simp only [removeKey, if_neg hak, List.length_cons]
        have := ih h
        omega
/-! ## Lemmas about eviction and size accounting -/

theorem evictScan_isSome (items : List (String × EntryVal)) (keys : List String)
    (p : String × Nat) : (evictScan items keys (some p)).isSome := by
  induction keys generalizing p with
  | nil => simp [evictScan]
  | cons k rest ih =>
    cases hk : getItem items k with
    | none => simpa [evictScan, hk] using ih p
    | some v =>
      cases v with
      | corrupt b => simpa [evictScan, hk] using ih p
      | good e =>
        obtain ⟨bk, bt⟩ := p
        by_cases ht : e.timestamp < bt
        · simpa [evictScan, hk, ht] using ih _
        · simpa [evictScan, hk, ht] using ih _

theorem evictScan_mem (items : List (String × EntryVal)) (keys : List String)
    (acc : Option (String × Nat)) (k : String) (t : Nat)
    (h : evictScan items keys acc = some (k, t)) : acc = some (k, t) ∨ k ∈ keys := by
  induction keys generalizing acc with
  | nil => exact Or.inl h
  | cons k' rest ih =>
    cases hk' : getItem items k' with
    | none =>
      rw [evictScan, hk'] at h
      rcases ih acc h with h1 | h1
      · exact Or.inl h1
      · exact Or.inr (List.mem_cons_of_mem _ h1)
    | some v =>
      cases v with
      | corrupt b =>
        rw [evictScan, hk'] at h
        rcases ih acc h with h1 | h1
        · exact Or.inl h1
        · exact Or.inr (List.mem_cons_of_mem _ h1)
      | good e =>
        cases acc with
        | none =>
          rw [evictScan, hk'] at h
          rcases ih _ h with h1 | h1
          · have : k' = k := by
              injection h1 with h2
              exact congrArg Prod.fst h2
            exact Or.inr (this ▸ List.mem_cons_self _ _)
          · exact Or.inr (List.mem_cons_of_mem _ h1)
        | some p =>
          obtain ⟨bk, bt⟩ := p
          simp only [evictScan, hk'] at h
          by_cases ht : e.timestamp < bt
          · rw [if_pos ht] at h
            rcases ih _ h with h1 | h1
            · have : k' = k := by
                injection h1 with h2
                exact congrArg Prod.fst h2
              exact Or.inr (this ▸ List.mem_cons_self _ _)
            · exact Or.inr (List.mem_cons_of_mem _ h1)
          · rw [if_neg ht] at h
            rcases ih _ h with h1 | h1
            · exact Or.inl h1
            · exact Or.inr (List.mem_cons_of_mem _ h1)

theorem evictScan_none (items : List (String × EntryVal)) (keys : List String)
    (acc : Option (String × Nat)) (h : evictScan items keys acc = none) :
    ∀ k ∈ keys, ∀ e, getItem items k ≠ some (.good e) := by
  induction keys generalizing acc with
  | nil => intro k hk; simp at hk
  | cons k' rest ih =>
    intro k hk e hke
    cases hk' : getItem items k' with
    | none =>
      rw [evictScan, hk'] at h
      rcases List.mem_cons.mp hk with h1 | h1
      · subst h1
        rw [hk'] at hke
        cases hke
      · exact ih acc h k h1 e hke
    | some v =>
      cases v with
      | corrupt b =>
        rw [evictScan, hk'] at h
        rcases List.mem_cons.mp hk with h1 | h1
        · subst h1
          rw [hk'] at hke
          cases hke
        · exact ih acc h k h1 e hke
      | good e' =>
        exfalso
        have hsome : (evictScan items (k' :: rest) acc).isSome := by
          cases acc with
          | none =>
            rw [evictScan, hk']
            exact evictScan_isSome items rest _
          | some p =>
            obtain ⟨bk, bt⟩ := p
            simp only [evictScan, hk']
            by_cases ht : e'.timestamp < bt
            · rw [if_pos ht]
              exact evictScan_isSome items rest _
            · rw [if_neg ht]
              exact evictScan_isSome items rest _
        rw [h] at hsome
        cases hsome

/-- Records without a parseable entry contribute nothing to the measured
size. -/
theorem sum_sizes_eq_zero (cfg : CacheConfig) (items : List (String × EntryVal))
    (l : List String) (hng : ∀ k ∈ l, ∀ e, getItem items k ≠ some (.good e))
    (hnc : ∀ k b, getItem items k ≠ some (.corrupt b)) :
    (l.map (sizeOfKey cfg items)).sum = 0 := by
  induction l with
  | nil => simp
  | cons a rest ih =>
    have ha : sizeOfKey cfg items a = 0 := by
      unfold sizeOfKey
      cases hk : getItem items a with
      | none => rfl
      | some v =>
        cases v with
        | good e => exact absurd hk (hng a (List.mem_cons_self _ _) e)
        | corrupt b => exact absurd hk (hnc a b)
    simp only [List.map_cons, List.sum_cons, ha, Nat.zero_add]
    exact ih (fun k hk e => hng k (List.mem_cons_of_mem _ hk) e)

/-- One-point bound for sums over a duplicate-free list: if `g` agrees with
`f` away from `key`, the `g`-sum exceeds the `f`-sum by at most `g key`. -/
theorem sum_map_le_of_agree (l : List String) (hnd : l.Nodup) (f g : String → Nat)
    (key : String) (hoff : ∀ x, x ≠ key → g x = f x) :
    (l.map g).sum ≤ (l.map f).sum + g key := by
  induction l with
  | nil => simp
  | cons a rest ih =>
    simp only [List.nodup_cons] at hnd
    by_cases hak : a = key
    · subst hak
      have hmap : rest.map g = rest.map f :=
        List.map_congr_left (fun x hx => hoff x (fun hc => hnd.1 (hc ▸ hx)))
      simp only [List.map_cons, List.sum_cons, hmap]
      omega
    · have hga : g a = f a := hoff a hak
      have := ih hnd.2
      simp only [List.map_cons, List.sum_cons, hga]
      omega
/-! ## Invariant preservation through the eviction loop -/

theorem noCorrupt_removeItem (items : List (String × EntryVal)) (key : String)
    (h : NoCorrupt items) : NoCorrupt (removeItem items key) := by
  intro k b hk
  rw [getItem_removeItem] at hk
  by_cases hke : k = key
  · rw [if_pos hke] at hk
    cases hk
  · rw [if_neg hke] at hk
    exact h k b hk

theorem nodup_evictWhileFull (cfg : CacheConfig) :
    ∀ (fuel : Nat) (s : CacheState), s.index.Nodup →
      (evictWhileFull cfg fuel s).index.Nodup := by
  intro fuel
  induction fuel with
  | zero => intro s h; exact h
  | succ fuel ih =>
    intro s h
    rw [evictWhileFull]
    by_cases hfull : isDiagnosisCacheFull cfg s = true
    · rw [if_pos hfull]
      cases hscan : evictScan s.items s.index none with
      | none => exact h
      | some p =>
        obtain ⟨k, t⟩ := p
        exact ih _ (nodup_removeKey s.index k h)
    · rw [if_neg hfull]
      exact h

theorem noCorrupt_evictWhileFull (cfg : CacheConfig) :
    ∀ (fuel : Nat) (s : CacheState), NoCorrupt s.items →
      NoCorrupt (evictWhileFull cfg fuel s).items := by
  intro fuel
  induction fuel with
  | zero => intro s h; exact h
  | succ fuel ih =>
    intro s h
    rw [evictWhileFull]
    by_cases hfull : isDiagnosisCacheFull cfg s = true
    · rw [if_pos hfull]
      cases hscan : evictScan s.items s.index none with
      | none => exact h
      | some p =>
        obtain ⟨k, t⟩ := p
        exact ih _ (noCorrupt_removeItem s.items k h)
    · rw [if_neg hfull]
      exact h

/-- Run to completion, the eviction loop leaves the measured size strictly
below the budget — provided every record parses (otherwise the source loop
does not even terminate) and the budget is positive. -/
theorem size_evictWhileFull_lt (cfg : CacheConfig) (hb : 0 < cfg.budgetBytes) :
    ∀ (fuel : Nat) (s : CacheState), s.index.length < fuel → NoCorrupt s.items →
      getDiagnosisCacheSize cfg (evictWhileFull cfg fuel s) < cfg.budgetBytes := by
  intro fuel
  induction fuel with
  | zero => intro s hlen _; omega
  | succ fuel ih =>
    intro s hlen hnc
    rw [evictWhileFull]
    by_cases hfull : isDiagnosisCacheFull cfg s = true
    · rw [if_pos hfull]
      cases hscan : evictScan s.items s.index none with
      | none =>
        have hng := evictScan_none s.items s.index none hscan
        have hz : getDiagnosisCacheSize cfg s = 0 :=
          sum_sizes_eq_zero cfg s.items s.index hng hnc
        rw [hz] at *
        exact hb
      | some p =>
        obtain ⟨k, t⟩ := p
        apply ih
        · have hkmem : k ∈ s.index := by
            rcases evictScan_mem s.items s.index none k t hscan with h1 | h1
            · cases h1
            · exact h1
          have := length_removeKey_lt s.index k hkmem
          simp only [deleteCachedDiagnosis_eq]
          omega
        · exact noCorrupt_removeItem s.items k hnc
    · rw [if_neg hfull]
      simp only [isDiagnosisCacheFull, decide_eq_true_eq] at hfull
      omega
/-! ## The write step of a successful store -/

theorem items_addToDiagnosisCacheIndex (iw : Bool) (s : CacheState) (key : String) :
    (addToDiagnosisCacheIndex iw s key).items = s.items := by
  cases iw <;> by_cases h : key ∈ s.index <;>
    simp [addToDiagnosisCacheIndex, updateDiagnosisCacheIndex, h]

theorem index_addToDiagnosisCacheIndex_true (s : CacheState) (key : String) :
    (addToDiagnosisCacheIndex true s key).index
      = if key ∈ s.index then s.index else s.index ++ [key] := by
  unfold addToDiagnosisCacheIndex updateDiagnosisCacheIndex
  by_cases h : key ∈ s.index
  · rw [if_pos h, if_pos h]
  · rw [if_neg h, if_neg h]
    rfl

theorem mem_addToDiagnosisCacheIndex (s : CacheState) (key k : String) :
    k ∈ (addToDiagnosisCacheIndex true s key).index ↔ k ∈ s.index ∨ k = key := by
  rw [index_addToDiagnosisCacheIndex_true]
  by_cases h : key ∈ s.index
  · rw [if_pos h]
    constructor
    · exact Or.inl
    · rintro (h1 | h1)
      · exact h1
      · exact h1 ▸ h
  · rw [if_neg h]
    simp

/-- Writing the record and registering the key grows the measured size by at
most the byte size of the written record (the previous record under the same
key, if any, stops being counted). -/
theorem size_store_le (cfg : CacheConfig) (s : CacheState) (key : String)
    (v : EntryVal) (hnd : s.index.Nodup) :
    getDiagnosisCacheSize cfg
        (addToDiagnosisCacheIndex true { s with items := setItem s.items key v } key)
      ≤ getDiagnosisCacheSize cfg s + entryValBytes cfg v := by
  have hg : ∀ x, x ≠ key →
      sizeOfKey cfg (setItem s.items key v) x = sizeOfKey cfg s.items x := by
    intro x hx
    unfold sizeOfKey
    rw [getItem_setItem, if_neg hx]
  have hkey : sizeOfKey cfg (setItem s.items key v) key = entryValBytes cfg v := by
    unfold sizeOfKey
    rw [getItem_setItem, if_pos rfl]
  unfold getDiagnosisCacheSize
  rw [items_addToDiagnosisCacheIndex, index_addToDiagnosisCacheIndex_true]
  show ((if key ∈ s.index then s.index else s.index ++ [key]).map
      (sizeOfKey cfg (setItem s.items key v))).sum ≤ _
  by_cases hmem : key ∈ s.index
  · rw [if_pos hmem]
    have := sum_map_le_of_agree s.index hnd (sizeOfKey cfg s.items)
      (sizeOfKey cfg (setItem s.items key v)) key hg
    rw [hkey] at this
    exact this
  · rw [if_neg hmem]
    rw [List.map_append, List.sum_append]
    have hrest : s.index.map (sizeOfKey cfg (setItem s.items key v))
        = s.index.map (sizeOfKey cfg s.items) :=
      List.map_congr_left (fun x hx => hg x (fun hc => hmem (hc ▸ hx)))
    simp only [List.map_cons, List.map_nil, List.sum_cons, List.sum_nil, hrest, hkey]
    omega

/-- After a store whose first write succeeds, the record sits under the bare
image hash. -/
theorem store_ok_getItem_self (cfg : CacheConfig) (w2 : WriteResult)
    (now retryNow : Nat) (organName imageData : String) (d : OrganDiagnosis)
    (s : CacheState) :
    getItem (cacheDiagnosis cfg .ok w2 now retryNow organName imageData d s).state.items
        (generateImageHash imageData)
      = some (.good (mkCachedDiagnosis organName (generateImageHash imageData) d now)) := by
  unfold cacheDiagnosis cacheDiagnosisW
  simp only [items_addToDiagnosisCacheIndex]
  rw [getItem_setItem, if_pos rfl]
/-! ## Index/store consistency -/

theorem indexMatchesStore_delete (s : CacheState) (key : String)
    (h : IndexMatchesStore s) :
    IndexMatchesStore (deleteCachedDiagnosis s key).1 := by
  intro k
  simp only [deleteCachedDiagnosis_eq]
  rw [mem_removeKey, getItem_removeItem]
  by_cases hk : k = key
  · simp [hk]
  · rw [if_neg hk]
    constructor
    · rintro ⟨h1, _⟩
      exact (h k).mp h1
    · intro h1
      exact ⟨(h k).mpr h1, hk⟩

theorem indexMatchesStore_write (s : CacheState) (key : String) (v : EntryVal)
    (h : IndexMatchesStore s) :
    IndexMatchesStore
      (addToDiagnosisCacheIndex true { s with items := setItem s.items key v } key) := by
  intro k
  rw [items_addToDiagnosisCacheIndex, mem_addToDiagnosisCacheIndex]
  show k ∈ s.index ∨ k = key ↔ _
  rw [getItem_setItem]
  by_cases hk : k = key
  · simp [hk]
  · rw [if_neg hk]
    constructor
    · rintro (h1 | h1)
      · exact (h k).mp h1
      · exact absurd h1 hk
    · intro h1
      exact Or.inl ((h k).mpr h1)

theorem indexMatchesStore_clearLoop (now : Nat) :
    ∀ (keys : List String) (s : CacheState) (c : Nat), IndexMatchesStore s →
      IndexMatchesStore (clearExpiredLoop now keys s c).1 := by
  intro keys
  induction keys with
  | nil => intro s c h; exact h
  | cons k rest ih =>
    intro s c h
    cases hk : getItem s.items k with
    | none => simpa [clearExpiredLoop, hk] using ih s c h
    | some v =>
      cases v with
      | corrupt b => simpa [clearExpiredLoop, hk] using ih s c h
      | good cached =>
        simp only [clearExpiredLoop, hk]
        by_cases hexp : cached.expiresAt < now
        · rw [if_pos hexp]
          exact ih _ _ (indexMatchesStore_delete s k h)
        · rw [if_neg hexp]
          exact ih s c h

theorem indexMatchesStore_evictWhileFull (cfg : CacheConfig) :
    ∀ (fuel : Nat) (s : CacheState), IndexMatchesStore s →
      IndexMatchesStore (evictWhileFull cfg fuel s) := by
  intro fuel
  induction fuel with
  | zero => intro s h; exact h
  | succ fuel ih =>
    intro s h
    rw [evictWhileFull]
    by_cases hfull : isDiagnosisCacheFull cfg s = true
    · rw [if_pos hfull]
      cases hscan : evictScan s.items s.index none with
      | none => exact h
      | some p =>
        obtain ⟨k, t⟩ := p
        exact ih _ (indexMatchesStore_delete s k h)
    · rw [if_neg hfull]
      exact h
/-- The eviction loop only ever removes index keys. -/
theorem mem_evictWhileFull_index (cfg : CacheConfig) :
    ∀ (fuel : Nat) (s : CacheState) (k : String),
      k ∈ (evictWhileFull cfg fuel s).index → k ∈ s.index := by
  intro fuel
  induction fuel with
  | zero => intro s k h; exact h
  | succ fuel ih =>
    intro s k h
    rw [evictWhileFull] at h
    by_cases hfull : isDiagnosisCacheFull cfg s = true
    · rw [if_pos hfull] at h
      cases hscan : evictScan s.items s.index none with
      | none =>
        rw [hscan] at h
        exact h
      | some p =>
        obtain ⟨k', t⟩ := p
        rw [hscan] at h
        have hmem : k ∈ removeKey s.index k' := ih _ k h
        exact ((mem_removeKey _ _ _).mp hmem).1
    · rw [if_neg hfull] at h
      exact h

/-! ## The sweeper never touches unparseable records -/

theorem clearLoop_preserves_corrupt (now : Nat) (key : String) (b : Nat) :
    ∀ (keys : List String) (s : CacheState) (c : Nat),
      getItem s.items key = some (.corrupt b) →
      getItem (clearExpiredLoop now keys s c).1.items key = some (.corrupt b) := by
  intro keys
  induction keys with
  | nil => intro s c h; exact h
  | cons k rest ih =>
    intro s c h
    cases hk : getItem s.items k with
    | none => simpa [clearExpiredLoop, hk] using ih s c h
    | some v =>
      cases v with
      | corrupt b' => simpa [clearExpiredLoop, hk] using ih s c h
      | good cached =>
        simp only [clearExpiredLoop, hk]
        by_cases hexp : cached.expiresAt < now
        · rw [if_pos hexp]
          apply ih
          simp only [deleteCachedDiagnosis_eq]
          rw [getItem_removeItem]
          have hkk : ¬ key = k := by
            intro hc
            rw [hc, hk] at h
            cases h
          rw [if_neg hkk]
          exact h
        · rw [if_neg hexp]
          exact ih s c h
/-! ## Claims -/

/-- Claim C9: the fingerprint function is deterministic — for every input
blob, two calls of `generateImageHash` yield the same string; the result is a
pure function of the blob alone (the embedded source reads no state and uses
no randomness), so equal inputs always produce equal fingerprints. -/
theorem c9_fingerprint_deterministic (b1 b2 : String) (h : b1 = b2) :
    generateImageHash b1 = generateImageHash b2 := by
  rw [h]

theorem c9_fingerprint_deterministic_witness :
    imgA = imgA ∧ generateImageHash imgA = generateImageHash imgA :=
  ⟨rfl, c9_fingerprint_deterministic imgA imgA rfl⟩

/-- Claim C8: delete is idempotent and never an error — `deleteCachedDiagnosis`
returns `true` for every key and state, deleting twice equals deleting once,
and on a fully absent key (no record, not indexed) the state is unchanged. -/
theorem c8_delete_idempotent (s : CacheState) (key : String) :
    (deleteCachedDiagnosis s key).2 = true
    ∧ deleteCachedDiagnosis (deleteCachedDiagnosis s key).1 key = deleteCachedDiagnosis s key
    ∧ (getItem s.items key = none → key ∉ s.index →
        (deleteCachedDiagnosis s key).1 = s) := by
  refine ⟨rfl, ?_, ?_⟩
  · have h1 : removeItem (removeItem s.items key) key = removeItem s.items key := by
      apply removeItem_eq_self
      rw [getItem_removeItem, if_pos rfl]
    have h2 : removeKey (removeKey s.index key) key = removeKey s.index key := by
      apply removeKey_eq_self
      intro hc
      exact ((mem_removeKey _ _ _).mp hc).2 rfl
    simp only [deleteCachedDiagnosis_eq, h1, h2]
  · intro h1 h2
    simp only [deleteCachedDiagnosis_eq,
      removeItem_eq_self s.items key h1, removeKey_eq_self s.index key h2]

theorem c8_delete_idempotent_witness :
    getItem emptyCacheState.items keyAbsent = none
    ∧ keyAbsent ∉ emptyCacheState.index
    ∧ (deleteCachedDiagnosis emptyCacheState keyAbsent).2 = true
    ∧ (deleteCachedDiagnosis emptyCacheState keyAbsent).1 = emptyCacheState :=
  ⟨rfl, by simp [emptyCacheState], (c8_delete_idempotent emptyCacheState keyAbsent).1,
   (c8_delete_idempotent emptyCacheState keyAbsent).2.2 rfl (by simp [emptyCacheState])⟩

/-- Claim C4: round trip — a store whose write succeeds (`w1 = .ok`, i.e. the
storage quota was not exceeded), followed by a lookup of the same blob at any
time at or before the entry expiry, returns the stored payload. -/
theorem c4_roundtrip (cfg : CacheConfig) (w2 : WriteResult) (now retryNow q : Nat)
    (organName imageData : String) (d : OrganDiagnosis) (s : CacheState)
    (hq : q ≤ now + DIAGNOSIS_CACHE_EXPIRY_MS) :
    (getCachedDiagnosis q imageData
        (cacheDiagnosis cfg .ok w2 now retryNow organName imageData d s).state).1
      = some d := by
  simp only [getCachedDiagnosis, store_ok_getItem_self, mkCachedDiagnosis]
  rw [if_neg (by omega)]

theorem c4_roundtrip_witness :
    (5 : Nat) ≤ 0 + DIAGNOSIS_CACHE_EXPIRY_MS
    ∧ (getCachedDiagnosis 5 imgA
        (cacheDiagnosis cfgSmall .ok .ok 0 0 organOne imgA diagOne emptyCacheState).state).1
      = some diagOne :=
  ⟨by decide,
   c4_roundtrip cfgSmall .ok 0 0 5 organOne imgA diagOne emptyCacheState (by decide)⟩

/-- Claim C3: lookup never returns an expired entry — after a store whose
write succeeds, a lookup strictly after insertion time + TTL reports absent;
and on any state whose stored record under the queried hash is past
`expiresAt`, the lookup deletes the record and deindexes it first, and
reports absent. -/
theorem c3_expiry (cfg : CacheConfig) (w2 : WriteResult) (now retryNow q : Nat)
    (organName imageData : String) (d : OrganDiagnosis) (s s' : CacheState)
    (e : CachedDiagnosis)
    (hq : now + DIAGNOSIS_CACHE_EXPIRY_MS < q)
    (h1 : getItem s'.items (generateImageHash imageData) = some (.good e))
    (h2 : e.expiresAt < q) :
    (getCachedDiagnosis q imageData
        (cacheDiagnosis cfg .ok w2 now retryNow organName imageData d s).state).1 = none
    ∧ (getCachedDiagnosis q imageData s').1 = none
    ∧ getItem (getCachedDiagnosis q imageData s').2.items (generateImageHash imageData) = none
    ∧ generateImageHash imageData ∉ (getCachedDiagnosis q imageData s').2.index := by
  refine ⟨?_, ?_, ?_, ?_⟩
  · simp only [getCachedDiagnosis, store_ok_getItem_self, mkCachedDiagnosis]
    rw [if_pos (by omega)]
  · simp only [getCachedDiagnosis, h1]
    rw [if_pos h2]
  · simp only [getCachedDiagnosis, h1]
    rw [if_pos h2]
    simp only [deleteCachedDiagnosis_eq]
    rw [getItem_removeItem, if_pos rfl]
  · simp only [getCachedDiagnosis, h1]
    rw [if_pos h2]
    simp only [deleteCachedDiagnosis_eq]
    intro hc
    exact ((mem_removeKey _ _ _).mp hc).2 rfl

theorem c3_expiry_witness :
    0 + DIAGNOSIS_CACHE_EXPIRY_MS < 2592000001
    ∧ getItem stateExpired.items (generateImageHash imgA) = some (.good entryExpired)
    ∧ entryExpired.expiresAt < 2592000001
    ∧ (getCachedDiagnosis 2592000001 imgA
        (cacheDiagnosis cfgSmall .ok .ok 0 0 organOne imgA diagOne emptyCacheState).state).1 = none
    ∧ (getCachedDiagnosis 2592000001 imgA stateExpired).1 = none :=
  ⟨by decide, by decide, by decide,
   (c3_expiry cfgSmall .ok 0 0 2592000001 organOne imgA diagOne emptyCacheState
      stateExpired entryExpired (by decide) (by decide) (by decide)).1,
   (c3_expiry cfgSmall .ok 0 0 2592000001 organOne imgA diagOne emptyCacheState
      stateExpired entryExpired (by decide) (by decide) (by decide)).2.1⟩
/-- Claim C10: the storage key is the image hash alone — storing the same
image under two different organ names writes to the same record (the second
store replaces the first), a lookup with only the image returns the last
stored diagnosis, and the organ-prefixed `generateDiagnosisCacheKey` never
equals the key the store/lookup path actually uses. -/
theorem c10_key_is_hash_only (cfg : CacheConfig) (w2 w2' : WriteResult)
    (t1 rn1 t2 rn2 q : Nat) (o1 o2 imageData : String) (d1 d2 : OrganDiagnosis)
    (s : CacheState)
    (hq : q ≤ t2 + DIAGNOSIS_CACHE_EXPIRY_MS) :
    getItem (cacheDiagnosis cfg .ok w2' t2 rn2 o2 imageData d2
          (cacheDiagnosis cfg .ok w2 t1 rn1 o1 imageData d1 s).state).state.items
        (generateImageHash imageData)
      = some (.good (mkCachedDiagnosis o2 (generateImageHash imageData) d2 t2))
    ∧ (getCachedDiagnosis q imageData
        (cacheDiagnosis cfg .ok w2' t2 rn2 o2 imageData d2
          (cacheDiagnosis cfg .ok w2 t1 rn1 o1 imageData d1 s).state).state).1
      = some d2
    ∧ (∀ o h : String, generateDiagnosisCacheKey o h ≠ h) := by
  refine ⟨store_ok_getItem_self cfg w2' t2 rn2 o2 imageData d2 _, ?_, ?_⟩
  · simp only [getCachedDiagnosis, store_ok_getItem_self, mkCachedDiagnosis]
    rw [if_neg (by omega)]
  · intro o h hc
    have hlen := congrArg String.length hc
    rw [generateDiagnosisCacheKey, String.length_append, String.length_append] at hlen
    have hone : (String.mk ['_']).length = 1 := rfl
    rw [hone] at hlen
    omega

theorem c10_key_is_hash_only_witness :
    (7 : Nat) ≤ 1 + DIAGNOSIS_CACHE_EXPIRY_MS
    ∧ (getCachedDiagnosis 7 imgA
        (cacheDiagnosis cfgSmall .ok .ok 1 1 organTwo imgA diagTwo
          (cacheDiagnosis cfgSmall .ok .ok 0 0 organOne imgA diagOne
            emptyCacheState).state).state).1
      = some diagTwo :=
  ⟨by decide,
   (c10_key_is_hash_only cfgSmall .ok .ok 0 0 1 1 7 organOne organTwo imgA
      diagOne diagTwo emptyCacheState (by decide)).2.1⟩

/-- Claim C6 (counterexample): a storage write rejection that is not a
`QuotaExceededError` is caught and reported as `false`, but triggers no
expiry sweep and no retry — contradicting the claim that every write
rejection runs the sweeper once and retries once. -/
theorem c6_write_failure_cex :
    (cacheDiagnosis cfgSmall .otherError .ok 0 0 organOne imgA diagOne
      emptyCacheState).ok = false
    ∧ (cacheDiagnosis cfgSmall .otherError .ok 0 0 organOne imgA diagOne
        emptyCacheState).sweepRan = false
    ∧ (cacheDiagnosis cfgSmall .otherError .ok 0 0 organOne imgA diagOne
        emptyCacheState).writeAttempts = 1 := by
  decide

/-- Claim C6 (amended): only a `QuotaExceededError` write failure triggers
the remediation pass — the sweep runs once and the write is retried exactly
once, success reported iff the retry succeeds; any other write failure is
caught and reported as `false` immediately, with no sweep and no retry.  In
every case the failure is surfaced as a boolean, never thrown. -/
theorem c6_write_failure_modes (cfg : CacheConfig) (w2 : WriteResult)
    (now retryNow : Nat) (organName imageData : String) (d : OrganDiagnosis)
    (s : CacheState) :
    (cacheDiagnosis cfg .quotaExceeded .ok now retryNow organName imageData d s).ok = true
    ∧ (cacheDiagnosis cfg .quotaExceeded .ok now retryNow organName imageData d s).sweepRan = true
    ∧ (cacheDiagnosis cfg .quotaExceeded .ok now retryNow organName imageData d s).writeAttempts = 2
    ∧ (cacheDiagnosis cfg .quotaExceeded .quotaExceeded now retryNow organName imageData d s).ok = false
    ∧ (cacheDiagnosis cfg .quotaExceeded .quotaExceeded now retryNow organName imageData d s).sweepRan = true
    ∧ (cacheDiagnosis cfg .quotaExceeded .quotaExceeded now retryNow organName imageData d s).writeAttempts = 2
    ∧ (cacheDiagnosis cfg .quotaExceeded .otherError now retryNow organName imageData d s).ok = false
    ∧ (cacheDiagnosis cfg .otherError w2 now retryNow organName imageData d s).ok = false
    ∧ (cacheDiagnosis cfg .otherError w2 now retryNow organName imageData d s).sweepRan = false
    ∧ (cacheDiagnosis cfg .otherError w2 now retryNow organName imageData d s).writeAttempts = 1 :=
  ⟨rfl, rfl, rfl, rfl, rfl, rfl, rfl, rfl, rfl, rfl⟩

/-- Claim C7 (counterexample): an unparseable record is not deleted by the
next lookup of its key nor by the next sweep — both leave it in place,
contradicting the claim that the offending record is deleted by one of the
two. -/
theorem c7_corrupt_record_cex :
    getItem (getCachedDiagnosis 9 imgA stateCorrupt).2.items
        (generateImageHash imgA) = some (.corrupt 7)
    ∧ getItem (clearExpiredDiagnoses 9 stateCorrupt).1.items
        (generateImageHash imgA) = some (.corrupt 7) := by
  decide

/-- Claim C7 (amended): a stored record that fails to deserialize is treated
as if the key does not exist — lookup reports absent and leaves the state
unchanged, and the sweep skips it without aborting — but the offending record
is never deleted by lookup or sweep; it survives both. -/
theorem c7_corrupt_record (now swNow : Nat) (imageData : String) (s : CacheState)
    (b : Nat)
    (h : getItem s.items (generateImageHash imageData) = some (.corrupt b)) :
    (getCachedDiagnosis now imageData s).1 = none
    ∧ (getCachedDiagnosis now imageData s).2 = s
    ∧ getItem (clearExpiredDiagnoses swNow s).1.items (generateImageHash imageData)
      = some (.corrupt b) := by
  refine ⟨?_, ?_, ?_⟩
  · simp only [getCachedDiagnosis, h]
  · simp only [getCachedDiagnosis, h]
  · exact clearLoop_preserves_corrupt swNow _ b s.index s 0 h

theorem c7_corrupt_record_witness :
    getItem stateCorrupt.items (generateImageHash imgA) = some (.corrupt 7)
    ∧ (getCachedDiagnosis 11 imgA stateCorrupt).1 = none
    ∧ (getCachedDiagnosis 11 imgA stateCorrupt).2 = stateCorrupt :=
  ⟨by decide, (c7_corrupt_record 11 12 imgA stateCorrupt 7 (by decide)).1,
   (c7_corrupt_record 11 12 imgA stateCorrupt 7 (by decide)).2.1⟩
/-- Claim C5 (counterexample): right after an entry expires the index still
lists its fingerprint although the record is no longer live, so the index is
not at all times the set of fingerprints with a live (non-expired) record —
lazy expiry leaves expired records indexed until a lookup or sweep removes
them. -/
theorem c5_index_live_cex :
    ¬ IndexMatchesLiveSpec
        (cacheDiagnosis cfgSmall .ok .ok 0 0 organOne imgA diagOne
          emptyCacheState).state
        (DIAGNOSIS_CACHE_EXPIRY_MS + 1) := by
  intro h
  have h1 := (h (generateImageHash imgA)).mp (by decide)
  exact absurd h1 (by decide)

/-- Claim C5 (amended): every mutation mutates the index in the same logical
operation as the store and, provided the backing storage accepts the
index-record writes, the index stays exactly the set of fingerprints with a
stored record, live or expired: store, lookup, delete and sweep all preserve
that consistency.  Neither half of the original claim is unconditional: the
source swallows index-write failures, so a store whose entry write is
accepted but whose index write fails still returns `true` while the new
record sits stored but unindexed, and a delete whose index write fails leaves
the removed key dangling in the index; and expired records stay stored and
indexed until lazily removed, so the index is not the set of live records
either. -/
theorem c5_index_consistency_conditional (cfg : CacheConfig) (w1 w2 : WriteResult)
    (now retryNow lookNow sweepNow : Nat) (organName imageData : String)
    (d : OrganDiagnosis) (key : String) (s : CacheState)
    (h : IndexMatchesStore s) :
    (IndexMatchesStore (cacheDiagnosis cfg w1 w2 now retryNow organName imageData d s).state
      ∧ IndexMatchesStore (getCachedDiagnosis lookNow imageData s).2
      ∧ IndexMatchesStore (deleteCachedDiagnosis s key).1
      ∧ IndexMatchesStore (clearExpiredDiagnoses sweepNow s).1)
    ∧ (cacheDiagnosisW cfg .ok w2 false true now retryNow organName imageData d s).ok = true
    ∧ (generateImageHash imageData ∉ s.index →
        ¬ IndexMatchesStore
          (cacheDiagnosisW cfg .ok w2 false true now retryNow organName imageData d s).state)
    ∧ (key ∈ s.index →
        ¬ IndexMatchesStore (deleteCachedDiagnosisW false s key).1) := by
  refine ⟨⟨?_, ?_, indexMatchesStore_delete s key h,
    indexMatchesStore_clearLoop sweepNow s.index s 0 h⟩, rfl, ?_, ?_⟩
  · have hev := indexMatchesStore_evictWhileFull cfg (s.index.length + 1) s h
    cases w1 with
    | ok => exact indexMatchesStore_write _ _ _ hev
    | quotaExceeded =>
      have hcl := indexMatchesStore_clearLoop retryNow
        (evictWhileFull cfg (s.index.length + 1) s).index
        (evictWhileFull cfg (s.index.length + 1) s) 0 hev
      cases w2 with
      | ok => exact indexMatchesStore_write _ _ _ hcl
      | quotaExceeded => exact hcl
      | otherError => exact hcl
    | otherError => exact hev
  · cases hk : getItem s.items (generateImageHash imageData) with
    | none => simpa [getCachedDiagnosis, hk] using h
    | some v =>
      cases v with
      | corrupt b => simpa [getCachedDiagnosis, hk] using h
      | good cached =>
        simp only [getCachedDiagnosis, hk]
        by_cases hexp : cached.expiresAt < lookNow
        · rw [if_pos hexp]
          exact indexMatchesStore_delete s _ h
        · rw [if_neg hexp]
          exact h
  · intro hmem hIMS
    have hstate : (cacheDiagnosisW cfg .ok w2 false true now retryNow organName
          imageData d s).state
        = { evictWhileFull cfg (s.index.length + 1) s with
            items := setItem (evictWhileFull cfg (s.index.length + 1) s).items
              (generateImageHash imageData)
              (.good (mkCachedDiagnosis organName (generateImageHash imageData) d now)) } :=
      addToDiagnosisCacheIndex_false _ _
    rw [hstate] at hIMS
    have hsome : (getItem
        (setItem (evictWhileFull cfg (s.index.length + 1) s).items
          (generateImageHash imageData)
          (.good (mkCachedDiagnosis organName (generateImageHash imageData) d now)))
        (generateImageHash imageData)).isSome = true := by
      rw [getItem_setItem, if_pos rfl]
      rfl
    have hidx := (hIMS (generateImageHash imageData)).mpr hsome
    exact hmem (mem_evictWhileFull_index cfg _ s _ hidx)
  · intro hkey hIMS
    have hsome := (hIMS key).mp hkey
    simp only [deleteCachedDiagnosisW_false] at hsome
    rw [getItem_removeItem, if_pos rfl] at hsome
    simp at hsome

theorem c5_index_consistency_conditional_witness :
    IndexMatchesStore stateExpired
    ∧ generateImageHash imgB ∉ stateExpired.index
    ∧ generateImageHash imgA ∈ stateExpired.index
    ∧ IndexMatchesStore
        (cacheDiagnosis cfgSmall .ok .ok 20 20 organTwo imgB diagTwo stateExpired).state
    ∧ ¬ IndexMatchesStore
        (cacheDiagnosisW cfgSmall .ok .ok false true 20 20 organTwo imgB diagTwo
          stateExpired).state
    ∧ ¬ IndexMatchesStore
        (deleteCachedDiagnosisW false stateExpired (generateImageHash imgA)).1 := by
  have hIMS : IndexMatchesStore stateExpired := by
    intro k
    by_cases hk : k = generateImageHash imgA
    · subst hk
      simp [stateExpired, getItem]
    · have hk2 : ¬ generateImageHash imgA = k := fun hc => hk hc.symm
      simp [stateExpired, getItem, hk, hk2]
  refine ⟨hIMS, by decide, by decide, ?_, ?_, ?_⟩
  · exact ((c5_index_consistency_conditional cfgSmall .ok .ok 20 20 0 0 organTwo imgB
      diagTwo (generateImageHash imgA) stateExpired hIMS).1).1
  · exact (c5_index_consistency_conditional cfgSmall .ok .ok 20 20 0 0 organTwo imgB
      diagTwo (generateImageHash imgA) stateExpired hIMS).2.2.1 (by decide)
  · exact (c5_index_consistency_conditional cfgSmall .ok .ok 20 20 0 0 organTwo imgB
      diagTwo (generateImageHash imgA) stateExpired hIMS).2.2.2 (by decide)

/-- Claim C1 (counterexample): a successful store can leave the total size of
live entries above the byte budget — with budget 100 and a 150-byte record,
storing into an empty cache succeeds and leaves the total at 150 > 100,
because the eviction loop runs only before the write and never re-checks
after it. -/
theorem c1_budget_cex :
    (cacheDiagnosis cfgOversize .ok .ok 0 0 organOne imgA diagOne
      emptyCacheState).ok = true
    ∧ ¬ (getDiagnosisCacheSize cfgOversize
          (cacheDiagnosis cfgOversize .ok .ok 0 0 organOne imgA diagOne
            emptyCacheState).state
        ≤ cfgOversize.budgetBytes) := by
  decide

/-- Claim C1 (amended): the eviction policy runs to completion before the
write, leaving the pre-insertion total strictly below the budget; hence after
a store whose write succeeds the total size is strictly below the budget plus
the size of the just-written record (it may exceed the budget itself by up to
that record's size) — provided the budget is positive and every stored record
parses (with only unparseable records and a full cache, the source loop would
not terminate at all). -/
theorem c1_budget_after_store (cfg : CacheConfig) (w2 : WriteResult)
    (now retryNow : Nat) (organName imageData : String) (d : OrganDiagnosis)
    (s : CacheState) (hb : 0 < cfg.budgetBytes) (hnd : s.index.Nodup)
    (hnc : NoCorrupt s.items) :
    getDiagnosisCacheSize cfg
        (cacheDiagnosis cfg .ok w2 now retryNow organName imageData d s).state
      < cfg.budgetBytes
        + cfg.entryBytes (mkCachedDiagnosis organName (generateImageHash imageData) d now) := by
  have hev := size_evictWhileFull_lt cfg hb (s.index.length + 1) s (by omega) hnc
  have hnd1 := nodup_evictWhileFull cfg (s.index.length + 1) s hnd
  have hle := size_store_le cfg (evictWhileFull cfg (s.index.length + 1) s)
    (generateImageHash imageData)
    (.good (mkCachedDiagnosis organName (generateImageHash imageData) d now)) hnd1
  simp only [entryValBytes] at hle
  exact lt_of_le_of_lt hle (by omega)

theorem c1_budget_after_store_witness :
    0 < cfgOversize.budgetBytes
    ∧ emptyCacheState.index.Nodup
    ∧ NoCorrupt emptyCacheState.items
    ∧ getDiagnosisCacheSize cfgOversize
        (cacheDiagnosis cfgOversize .ok .ok 0 0 organOne imgA diagOne
          emptyCacheState).state
      < cfgOversize.budgetBytes
        + cfgOversize.entryBytes
            (mkCachedDiagnosis organOne (generateImageHash imgA) diagOne 0) :=
  ⟨by decide, by simp [emptyCacheState],
   by intro k b hk; simp [emptyCacheState, getItem] at hk,
   c1_budget_after_store cfgOversize .ok 0 0 organOne imgA diagOne emptyCacheState
     (by decide) (by simp [emptyCacheState])
     (by intro k b hk; simp [emptyCacheState, getItem] at hk)⟩

set_option maxRecDepth 16384 in
/-- Claim C2 (counterexample): in the spec scenario — budget 100 bytes, three
40-byte entries stored in order at times 0, 1, 2 — the third store evicts
nothing: the first entry is still retrievable afterwards and the total is 120
bytes, not the claimed \x7bk2, k3\x7d totalling 80. -/
theorem c2_eviction_cex :
    (getCachedDiagnosis 3 imgA scenario3).1 = some diagOne
    ∧ getDiagnosisCacheSize cfgSmall scenario3 = 120 := by
  decide

set_option maxRecDepth 16384 in
/-- Claim C2 (amended): eviction triggers only on a store whose pre-insertion
total already reaches the budget, and then removes the strictly oldest entry
by timestamp, one at a time, until the total is strictly below budget, before
inserting (without re-checking).  In the scenario, the third store leaves all
three entries (120 bytes); the fourth store finds 120 ≥ 100, evicts exactly
the oldest entry k1, and inserts — leaving k2, k3, k4 live and k1 absent,
with total again 120 bytes. -/
theorem c2_eviction_amended :
    getDiagnosisCacheSize cfgSmall scenario3 = 120
    ∧ (getCachedDiagnosis 4 imgA scenario4).1 = none
    ∧ (getCachedDiagnosis 4 imgB scenario4).1 = some diagTwo
    ∧ (getCachedDiagnosis 4 imgC scenario4).1 = some diagThree
    ∧ (getCachedDiagnosis 4 imgD scenario4).1 = some diagFour
    ∧ getDiagnosisCacheSize cfgSmall scenario4 = 120
    ∧ scenario4.index
      = [generateImageHash imgB, generateImageHash imgC, generateImageHash imgD] := by
  decide
